import Mathlib

/-!
Verification development for the `go-secure-backup-s3` pipeline
(`src/main.go`): a three stage pipeline that zips a folder, encrypts and
signs the archive with OpenPGP key material, and uploads the result to S3.

Shallow embedding conventions:
* Paths and other Go strings are `List Char`; file contents are `List Nat`
  (one `Nat` per byte).
* The filesystem is abstract: the folder tree is the set of regular files
  below the root (the spec's FolderTree), each carrying the outcome of the
  `lstat`/`ReadFile` calls the walk performs on it, and `os.Stat` outcomes
  for the validated paths are an explicit oracle.
* Go functions that can `panic` at runtime (nil dereference, out-of-range
  index) return an `Outcome` with a distinguished `panics` constructor;
  fallible calls return `Outcome`/`Except`.
* The `golang.org/x/crypto/openpgp` engine is an external library (not part
  of this repository); it is modelled at its interface: armored-keyring
  parsing results are oracles, and `Encrypt`/`Decrypt` are modelled from the
  spec's sign-then-encrypt contract, keeping the library's documented
  streaming order (session-key packets are written to the caller's buffer
  when the encrypting sink is constructed, the signed body when it is
  closed).  The ciphertext buffer is modelled at OpenPGP packet granularity
  (`MsgPart`), the byte serialization of packets being injective.
-/

namespace SecureBackup

/-- Go `string` used as a path / flag value: a list of characters. -/
abbrev PathStr := List Char

/-- A single path component (directory-entry name). -/
abbrev Seg := List Char

/-- File contents, one `Nat` per byte. -/
abbrev Bytes := List Nat

/-! ### Go path handling: `filepath.Clean`, `filepath.Join`, `strings.TrimPrefix`

`filepath.Walk` builds each visited path with `filepath.Join(parent, name)`,
and `Join` runs `Clean` on the result; `ZipFolder` (src/main.go:141) then
computes the archive entry name with `strings.TrimPrefix(path, folderPath+"/")`.
We model `/`-separated (Unix) paths, which is what the code's
`folderPath+"/"` concatenation assumes. -/

/-- Split a path into its `/`-separated components (`""` components appear
for leading, trailing or doubled separators), as `strings.Split(p, "/")`. -/
def splitSlash : PathStr → List Seg
  | [] => [[]]
  | '/' :: rest => [] :: splitSlash rest
  | c :: rest =>
    match splitSlash rest with
    | [] => [[c]]
    | s :: ss => (c :: s) :: ss

/-- Join components with `/` (no cleaning): `strings.Join(segs, "/")`. -/
def joinSegs : List Seg → PathStr
  | [] => []
  | [n] => n
  | n :: ns => n ++ '/' :: joinSegs ns

/-- One step of `filepath.Clean`'s element processing: skip empty and `.`
components, resolve `..` against the stack (dropping it at the root of a
rooted path, keeping it at the front of a relative path). -/
def cleanStep (rooted : Bool) (stack : List Seg) (seg : Seg) : List Seg :=
  if seg = [] ∨ seg = ['.'] then stack
  else if seg = ['.', '.'] then
    if stack ≠ [] ∧ stack.getLast? ≠ some ['.', '.'] then stack.dropLast
    else if rooted then stack else stack ++ [seg]
  else stack ++ [seg]

/-- Go `path/filepath.Clean` for `/`-separated paths. -/
def goClean (p : PathStr) : PathStr :=
  if p = [] then ['.']
  else
    let rooted : Bool := p.head? == some '/'
    match rooted, (splitSlash p).foldl (cleanStep rooted) [] with
    | true, [] => ['/']
    | true, stack => '/' :: joinSegs stack
    | false, [] => ['.']
    | false, stack => joinSegs stack

/-- Go `filepath.Join(p, n)` for a nonempty first element:
`Clean(p + "/" + n)`. -/
def goJoin (p : PathStr) (n : Seg) : PathStr :=
  goClean (p ++ '/' :: n)

/-- Go `strings.TrimPrefix(s, pre)`: drop `pre` when it is a prefix of `s`,
otherwise return `s` unchanged. -/
def goTrimPfx (s pre : PathStr) : PathStr :=
  if pre.isPrefixOf s then s.drop pre.length else s

/-- A valid directory-entry name: nonempty, no separator, not `.` or `..`.
Real directory entries always satisfy this. -/
def validName (n : Seg) : Prop :=
  n ≠ [] ∧ ('/' : Char) ∉ n ∧ n ≠ ['.'] ∧ n ≠ ['.', '.']

instance : DecidablePred validName := fun n => by
  unfold validName; infer_instance

/-- The path whose components are `segs`, absolute iff `abs`. -/
def pathOf (abs : Bool) (segs : List Seg) : PathStr :=
  (if abs then ['/'] else []) ++ joinSegs segs

/-! ### Errors and outcomes -/

/-- Error values the program can return, one constructor per distinct
error site (validation messages src/main.go:78-102, walk I/O errors,
key-file open/parse errors, OpenPGP errors, S3 transport errors). -/
inductive Err
  | invalidFolder | invalidTpub | invalidSpriv | invalidPassword
  | invalidRegion | invalidBucketKey | invalidAwsKeys
  | ioRead
  | openFail | parseFail
  | authFail | invalidArg | sigFail
  | transport
deriving DecidableEq, Repr

/-- Result of running a piece of Go code: a value, a returned `error`, or a
runtime panic (nil-pointer dereference / index out of range). -/
inductive Outcome (α : Type)
  | ok (a : α)
  | error (e : Err)
  | panics
deriving DecidableEq, Repr

/-! ### Archiver: `ZipFolder` (src/main.go:130-160)

`ZipFolder` runs `filepath.Walk(folderPath, fn)`.  `Walk` visits each
directory's entries in sorted name order (`readDirNames` sorts), so over a
tree of regular files the visit order of the files is the lexicographic
order of their relative segment paths (no file path is a strict prefix of
another file path, since a prefix of a file path names a directory).  We
model the FolderTree as the spec's §3 data model does: the set of regular
files under the root, each identified by its segment path relative to the
root, and the walk as the fold of the callback over that set in
lexicographic order.

For each visited regular file the callback (src/main.go:134-152):
* receives `(path, info, err)` from `Walk`; when `lstat` failed on the path
  `info` is nil and `err` non-nil — the callback ignores `err` and calls
  `info.IsDir()`, a nil-pointer dereference (`Outcome.panics`);
* calls `ioutil.ReadFile(path)` and returns its error on failure;
* creates the zip entry named `strings.TrimPrefix(path, folderPath+"/")`
  and writes the file bytes (infallible on a `bytes.Buffer` sink). -/

/-- Outcome of the walk's syscalls on one regular file: readable content,
`ReadFile` failure, or `lstat` failure (the callback then gets a nil
`FileInfo`). -/
inductive FileStatus
  | readable (content : Bytes)
  | readFails
  | statFails
deriving DecidableEq, Repr

/-- One regular file of the FolderTree: its path below the root as segments,
and its syscall status. -/
structure FileEntry where
  segs : List Seg
  status : FileStatus
deriving DecidableEq, Repr

/-- The zip container written into the output buffer: its entries in
written order, and whether `zipWriter.Close()` has written the central
directory (finalized). -/
structure ZipArchive where
  entries : List (PathStr × Bytes)
  finalized : Bool
deriving DecidableEq, Repr

/-- Walk visit order on file entries: lexicographic on segment paths. -/
def entryLe (a b : FileEntry) : Prop := a.segs ≤ b.segs

instance : DecidableRel entryLe := fun a b =>
  inferInstanceAs (Decidable (a.segs ≤ b.segs))

/-- Strict version of `entryLe`. -/
def entryLt (a b : FileEntry) : Prop := a.segs < b.segs

instance : IsTotal FileEntry entryLe := ⟨fun a b => le_total a.segs b.segs⟩

instance : IsTrans FileEntry entryLe :=
  ⟨fun _ _ _ hab hbc => le_trans hab hbc⟩

instance : IsAntisymm FileEntry entryLt :=
  ⟨fun _ _ h h' => absurd h' (lt_asymm h)⟩

/-- The order in which `filepath.Walk` reaches the regular files
(`readDirNames` sorts each directory's entries). -/
def walkOrder (tree : List FileEntry) : List FileEntry :=
  List.insertionSort entryLe tree

/-- The absolute path `Walk` hands the callback for a file:
`Join` applied from the root down the file's components. -/
def fullPath (folderPath : PathStr) (e : FileEntry) : PathStr :=
  e.segs.foldl goJoin folderPath

/-- The archive entry name `ZipFolder` records (src/main.go:141):
`strings.TrimPrefix(path, folderPath+"/")`. -/
def entryName (folderPath : PathStr) (e : FileEntry) : PathStr :=
  goTrimPfx (fullPath folderPath e) (folderPath ++ ['/'])

/-- One callback invocation on a regular file (src/main.go:135-150). -/
def zipStep (folderPath : PathStr) (acc : List (PathStr × Bytes))
    (e : FileEntry) : Outcome (List (PathStr × Bytes)) :=
  match e.status with
  | .statFails => .panics
  | .readFails => .error .ioRead
  | .readable data => .ok (acc ++ [(entryName folderPath e, data)])

/-- The walk over the (ordered) files, aborting at the first callback
error, propagating a callback panic. -/
def zipWalk (folderPath : PathStr) :
    List FileEntry → List (PathStr × Bytes) → Outcome (List (PathStr × Bytes))
  | [], acc => .ok acc
  | e :: rest, acc =>
    match zipStep folderPath acc e with
    | .ok acc' => zipWalk folderPath rest acc'
    | .error er => .error er
    | .panics => .panics

/-- `ZipFolder` (src/main.go:130-160): walk the tree in visit order,
then `zipWriter.Close()` (infallible on a `bytes.Buffer`) finalizes the
container. -/
def ZipFolder (folderPath : PathStr) (tree : List FileEntry) :
    Outcome ZipArchive :=
  match zipWalk folderPath (walkOrder tree) [] with
  | .ok entries => .ok ⟨entries, true⟩
  | .error er => .error er
  | .panics => .panics

/-! ### KeyRing and CryptoSigner: `EncryptAndSign` (src/main.go:169-218)

The function opens and parses the two armored key files, walks the private
keyring unlocking every passphrase-protected private key in place, and then
calls `openpgp.Encrypt(encryptedBuffer, publicKeyList, privateKeyList[0],
nil, nil)`, writes the archive bytes into the returned sink and closes it.
File open and `ReadArmoredKeyRing` outcomes are oracles
(`Except Err (List Entity)`), folding an open failure and a parse failure
into the error the function would return at that point. -/

/-- Private key material of one identity: whether it is still
passphrase-protected, the passphrase that unlocks it, and whether its
material is malformed in a way only discovered when the signature is
produced at `Close` (spec §4.3: "malformed key material discovered late"). -/
structure PrivKey where
  encrypted : Bool
  pass : List Char
  signBroken : Bool
deriving DecidableEq, Repr

/-- `entity.PrivateKey.Decrypt(passphrase)`: unlocking succeeds exactly
when the passphrase matches; a wrong passphrase is the spec §7
AuthenticationError. -/
def PrivKey.decryptKey (pk : PrivKey) (pw : List Char) : Except Err PrivKey :=
  if pk.encrypted then
    if pw = pk.pass then .ok { pk with encrypted := false }
    else .error .authFail
  else .ok pk

/-- An `openpgp.Entity`: its (sub)key id used for encryption/verification,
and its private key material when present. -/
structure Entity where
  keyId : Nat
  privateKey : Option PrivKey
deriving DecidableEq, Repr

/-- OpenPGP packets written into the ciphertext buffer: one session-key
packet per recipient, then the symmetrically encrypted, signed body. -/
inductive MsgPart
  | encKey (recipientId : Nat) (sessionKey : Nat)
  | body (sessionKey : Nat) (signerId : Nat) (payload : ZipArchive)
deriving DecidableEq, Repr

/-- State of the encrypting sink between `openpgp.Encrypt` and `Close`. -/
structure EncState where
  sessionKey : Nat
  signerId : Nat
  signBroken : Bool
deriving DecidableEq, Repr

/-- The unlock loop (src/main.go:195-203): for each entity whose private
key is present and passphrase-protected, `Decrypt` it in place; the first
failure aborts `EncryptAndSign` with that error. -/
def decryptLoop (pw : List Char) : List Entity → Except Err (List Entity)
  | [] => .ok []
  | e :: rest =>
    match e.privateKey with
    | some pk =>
      if pk.encrypted then
        match pk.decryptKey pw with
        | .error er => .error er
        | .ok pk' =>
          match decryptLoop pw rest with
          | .error er => .error er
          | .ok rest' => .ok ({ e with privateKey := some pk' } :: rest')
      else
        match decryptLoop pw rest with
        | .error er => .error er
        | .ok rest' => .ok (e :: rest')
    | none =>
      match decryptLoop pw rest with
      | .error er => .error er
      | .ok rest' => .ok (e :: rest')

/-- The signer the code hands to `openpgp.Encrypt`: `privateKeyList[0]`
(src/main.go:206), the first entity of the parsed private keyring —
`none` when the list is empty (in Go, an index-out-of-range panic). -/
def chosenSigner (l : List Entity) : Option Entity := l.head?

/-- An entity holding usable (already-unlocked) private key material. -/
def usableEntity (e : Entity) : Bool :=
  match e.privateKey with
  | some pk => !pk.encrypted
  | none => false

/-- The signer the spec's selection policy (§4.2) describes: the first
identity in listed order that holds usable private key material.
(Spec-side definition, stated for comparison with `chosenSigner`.) -/
def firstUsableSigner (l : List Entity) : Option Entity :=
  l.find? usableEntity

/-- `openpgp.Encrypt(buf, to, signed, nil, nil)`: validates the signer
(must hold a decrypted private key) and the recipient set (must be
nonempty, per spec §4.3) before writing, then writes one session-key
packet per recipient into the caller's buffer and returns the sink state.
`sessionKey` models the fresh random session key of this run. -/
def pgpEncryptInit (buf : List MsgPart) (recips : List Entity)
    (signed : Entity) (sessionKey : Nat) :
    Except Err (List MsgPart × EncState) :=
  match signed.privateKey with
  | none => .error .invalidArg
  | some pk =>
    if pk.encrypted then .error .invalidArg
    else if recips.isEmpty then .error .invalidArg
    else
      .ok (buf ++ recips.map (fun r => .encKey r.keyId sessionKey),
           ⟨sessionKey, signed.keyId, pk.signBroken⟩)

/-- `w.Close()`: produce the signature over the written payload and flush
the encrypted signed body; fails when the signing material is malformed. -/
def pgpClose (buf : List MsgPart) (st : EncState) (payload : ZipArchive) :
    Except Err (List MsgPart) :=
  if st.signBroken then .error .sigFail
  else .ok (buf ++ [.body st.sessionKey st.signerId payload])

/-- `EncryptAndSign` (src/main.go:169-218).  Returns the function's
outcome together with the final contents of the caller-owned
`encryptedBuffer` (which the function never resets on failure).
`pubSrc`/`privSrc` are the outcomes of opening + parsing the two key
files; `w.Write` of the whole payload into the in-memory sink is
infallible, the payload being flushed at `Close`. -/
def EncryptAndSign (payload : ZipArchive)
    (pubSrc privSrc : Except Err (List Entity)) (password : List Char)
    (sessionKey : Nat) (encryptedBuffer : List MsgPart) :
    Outcome Unit × List MsgPart :=
  match pubSrc with
  | .error er => (.error er, encryptedBuffer)
  | .ok publicKeyList =>
    match privSrc with
    | .error er => (.error er, encryptedBuffer)
    | .ok privateKeyList =>
      match decryptLoop password privateKeyList with
      | .error er => (.error er, encryptedBuffer)
      | .ok decryptedList =>
        match chosenSigner decryptedList with
        | none => (.panics, encryptedBuffer)
        | some signer =>
          match pgpEncryptInit encryptedBuffer publicKeyList signer
              sessionKey with
          | .error er => (.error er, encryptedBuffer)
          | .ok (buf1, st) =>
            match pgpClose buf1 st payload with
            | .error er => (.error er, buf1)
            | .ok buf2 => (.ok (), buf2)

/-! ### Decrypt-and-verify (round-trip observer)

Modelled from the spec: restore/decrypt tooling is a stated non-goal of
the repository (§1), so the observer side of the §8 round-trip property is
modelled from the spec's sign-then-encrypt contract: a recipient's private
key recovers the session key from its session-key packet, the session key
opens the body, and the signature verifies against the signer's public
key. -/

/-- Recover the session key using the private key of the identity
`recipId`: the first session-key packet addressed to it. -/
def findSessionKey (recipId : Nat) : List MsgPart → Option Nat
  | [] => none
  | .encKey kid sk :: rest =>
    if kid = recipId then some sk else findSessionKey recipId rest
  | .body _ _ _ :: rest => findSessionKey recipId rest

/-- Open the symmetrically encrypted body with the session key, yielding
the signed payload and the key id the signature was made with. -/
def findBody (sk : Nat) : List MsgPart → Option (ZipArchive × Nat)
  | [] => none
  | .encKey _ _ :: rest => findBody sk rest
  | .body sk' signerId payload :: rest =>
    if sk' = sk then some (payload, signerId) else findBody sk rest

/-- Modelled from the spec: decrypt a produced message with the private
key of identity `recipId`, returning the recovered payload and the
signature's key id. -/
def pgpDecrypt (recipId : Nat) (buf : List MsgPart) :
    Option (ZipArchive × Nat) :=
  (findSessionKey recipId buf).bind fun sk => findBody sk buf

/-- Modelled from the spec: the signature check against the signer's
public key passes iff the signature was made by that key. -/
def sigMatches (signerPubId : Nat) (r : ZipArchive × Nat) : Bool :=
  r.2 == signerPubId

/-! ### Validation and pipeline driver: `validateInputs`, `isDirExists`,
`isFileExists`, `UploadToS3`, `main` (src/main.go:21-124, 228-250) -/

/-- Outcome of `os.Stat(path)` as the code observes it: an existing
directory, an existing non-directory, non-existence
(`os.IsNotExist(err)`), or a stat failure for any other reason
(permission error on a parent, I/O error, ...), in which case the returned
`FileInfo` is nil and `os.IsNotExist(err)` is false. -/
inductive StatRes
  | foundDir
  | foundFile
  | notFound
  | statError
deriving DecidableEq, Repr

/-- `isDirExists` (src/main.go:109-115): returns false on
`os.IsNotExist`, otherwise calls `info.IsDir()` — a nil-pointer
dereference when the stat failed for any other reason. -/
def isDirExists (s : StatRes) : Outcome Bool :=
  match s with
  | .foundDir => .ok true
  | .foundFile => .ok false
  | .notFound => .ok false
  | .statError => .panics

/-- `isFileExists` (src/main.go:118-124): returns false on
`os.IsNotExist`, true otherwise; the `FileInfo` is discarded, so this one
is total. -/
def isFileExists (s : StatRes) : Bool :=
  match s with
  | .notFound => false
  | _ => true

/-- The nine flag values of a run (src/main.go:27-35). -/
structure Config where
  folder : PathStr
  tpub : PathStr
  spriv : PathStr
  password : List Char
  bucket : List Char
  s3key : List Char
  region : List Char
  accessKey : List Char
  secretKey : List Char
deriving DecidableEq, Repr

/-- `validateInputs` (src/main.go:75-106): the chain of checks in source
order, with Go's short-circuit `||` (no stat call when the path flag is
empty); a panic inside `isDirExists` propagates. -/
def validateInputs (cfg : Config) (folderStat tpubStat sprivStat : StatRes) :
    Outcome Unit :=
  if cfg.folder = [] then .error .invalidFolder
  else
    match isDirExists folderStat with
    | .panics => .panics
    | .error er => .error er
    | .ok dirB =>
      if !dirB then .error .invalidFolder
      else if cfg.tpub = [] then .error .invalidTpub
      else if !isFileExists tpubStat then .error .invalidTpub
      else if cfg.spriv = [] then .error .invalidSpriv
      else if !isFileExists sprivStat then .error .invalidSpriv
      else if cfg.password = [] then .error .invalidPassword
      else if cfg.region = [] then .error .invalidRegion
      else if cfg.bucket = [] ∨ cfg.s3key = [] then .error .invalidBucketKey
      else if cfg.accessKey = [] ∨ cfg.secretKey = [] then
        .error .invalidAwsKeys
      else .ok ()

/-- `UploadToS3` (src/main.go:228-250): one `PutObject` call whose outcome
(`transport` errors included) is the network oracle `res`. -/
def UploadToS3 (_artifact : List MsgPart) (res : Outcome Unit) :
    Outcome Unit :=
  res

/-- The run's environment: stat outcomes for the three validated paths,
the folder tree, the two key-file open+parse outcomes, this run's fresh
session key, and the S3 call outcome. -/
structure World where
  folderStat : StatRes
  tpubStat : StatRes
  sprivStat : StatRes
  tree : List FileEntry
  pubSrc : Except Err (List Entity)
  privSrc : Except Err (List Entity)
  sessionKey : Nat
  uploadRes : Outcome Unit

/-- The stages `main` can invoke, in pipeline order. -/
inductive Stage
  | validateStage
  | zipStage
  | encryptStage
  | uploadStage
deriving DecidableEq, Repr

/-- How a run of `main` ends: a validation error printed with a clean
return (src/main.go:39-42), a `panic` (src/main.go:47,53,58 or a runtime
panic inside a stage), or the success message. -/
inductive RunOutcome
  | cleanError (e : Err)
  | panicked
  | success
deriving DecidableEq, Repr

/-- `main` (src/main.go:21-62): validate, zip, encrypt-and-sign, upload,
strictly in sequence, recording which stages were invoked.  Any stage
error after validation is a `panic(err)`. -/
def runMain (cfg : Config) (w : World) : RunOutcome × List Stage :=
  match validateInputs cfg w.folderStat w.tpubStat w.sprivStat with
  | .panics => (.panicked, [.validateStage])
  | .error er => (.cleanError er, [.validateStage])
  | .ok () =>
    match ZipFolder cfg.folder w.tree with
    | .panics => (.panicked, [.validateStage, .zipStage])
    | .error _ => (.panicked, [.validateStage, .zipStage])
    | .ok archive =>
      match EncryptAndSign archive w.pubSrc w.privSrc cfg.password
          w.sessionKey [] with
      | (.panics, _) =>
        (.panicked, [.validateStage, .zipStage, .encryptStage])
      | (.error _, _) =>
        (.panicked, [.validateStage, .zipStage, .encryptStage])
      | (.ok (), artifact) =>
        match UploadToS3 artifact w.uploadRes with
        | .ok () =>
          (.success,
           [.validateStage, .zipStage, .encryptStage, .uploadStage])
        | _ =>
          (.panicked,
           [.validateStage, .zipStage, .encryptStage, .uploadStage])

/-! ### Concrete values used by witnesses and counterexamples -/

/-- The root path `/data` (no trailing separator). -/
def rootA : PathStr := ['/', 'd', 'a', 't', 'a']

/-- A readable regular file `a` (one byte) directly under the root. -/
def fileA : FileEntry := ⟨[['a']], .readable [104]⟩

/-- A readable regular file `b` (one byte) directly under the root. -/
def fileB : FileEntry := ⟨[['b']], .readable [98]⟩

/-- A file on which `lstat` fails mid-walk (deletion race / permission
change): the callback receives a nil `FileInfo`. -/
def fileStatX : FileEntry := ⟨[['x']], .statFails⟩

/-- A file that stats fine but whose `ReadFile` fails. -/
def fileReadX : FileEntry := ⟨[['x']], .readFails⟩

/-- A recipient identity (public key only). -/
def recip7 : Entity := ⟨7, none⟩

/-- Passphrase-protected signing key, unlocked by `pw`. -/
def pkLocked : PrivKey := ⟨true, ['p', 'w'], false⟩

/-- Already-unlocked, well-formed signing key. -/
def pkPlain : PrivKey := ⟨false, [], false⟩

/-- Already-unlocked signing key whose material is malformed in a way only
discovered when the signature is produced at `Close`. -/
def pkBroken : PrivKey := ⟨false, [], true⟩

/-- The signer identity holding `pkLocked`. -/
def signer9 : Entity := ⟨9, some pkLocked⟩

/-- An identity with no private key material at all. -/
def entNoKey : Entity := ⟨1, none⟩

/-- An identity with usable (already-unlocked) private key material. -/
def entUsable : Entity := ⟨2, some pkPlain⟩

/-- An identity whose key material breaks at signature time. -/
def entBroken : Entity := ⟨9, some pkBroken⟩

/-- The empty, finalized archive. -/
def payload0 : ZipArchive := ⟨[], true⟩

/-- A fully valid run configuration. -/
def cfgOk : Config :=
  ⟨['f'], ['t'], ['s'], ['p', 'w'], ['b'], ['k'], ['r'], ['a'], ['z']⟩

/-- A world whose key material is fine but whose signing key `pkLocked` is
passphrase-protected; combined with a config whose passphrase is wrong it
exercises the authentication-failure path. -/
def worldLocked : World :=
  ⟨.foundDir, .foundFile, .foundFile, [], .ok [recip7], .ok [signer9], 5,
   .ok ()⟩

/-- `cfgOk` with the wrong signing passphrase `xx`. -/
def cfgWrongPass : Config :=
  { cfgOk with password := ['x', 'x'] }

/-- `cfgOk` with the folder flag missing. -/
def cfgNoFolder : Config :=
  { cfgOk with folder := [] }

/-- `pkLocked` after a successful unlock. -/
def pkUnlocked : PrivKey := ⟨false, ['p', 'w'], false⟩

/-- `signer9` after the unlock loop. -/
def signer9U : Entity := ⟨9, some pkUnlocked⟩

/-- A one-entry archive payload. -/
def payload1 : ZipArchive := ⟨[(['a'], [104])], true⟩

/-! ## Theorems -/

/-! ### Helper lemmas about `EncryptAndSign` -/

/-- Whether `EncryptAndSign` succeeds does not depend on the payload: the
payload is only hashed/encrypted into the buffer, every check concerns the
key material. -/
theorem encryptAndSign_fst_payload_eq (p₁ p₂ : ZipArchive)
    (pubSrc privSrc : Except Err (List Entity)) (pw : List Char) (sk : Nat)
    (buf : List MsgPart) :
    (EncryptAndSign p₁ pubSrc privSrc pw sk buf).1
      = (EncryptAndSign p₂ pubSrc privSrc pw sk buf).1 := by
  unfold EncryptAndSign
  cases pubSrc with
  | error er => rfl
  | ok pubs =>
    cases privSrc with
    | error er => rfl
    | ok privs =>
      dsimp only
      cases hdl : decryptLoop pw privs with
      | error er => rfl
      | ok dl =>
        dsimp only
        cases hcs : chosenSigner dl with
        | none => rfl
        | some signer =>
          dsimp only
          cases hin : pgpEncryptInit buf pubs signer sk with
          | error er => rfl
          | ok pr =>
            obtain ⟨buf1, st⟩ := pr
            dsimp only [pgpClose]
            by_cases h : st.signBroken = true <;> simp [h]

/-! ### Path lemmas -/

theorem joinSegs_append (a b : List Seg) (ha : a ≠ []) (hb : b ≠ []) :
    joinSegs (a ++ b) = joinSegs a ++ '/' :: joinSegs b := by
  induction a with
  | nil => exact absurd rfl ha
  | cons n ns ih =>
    cases ns with
    | nil =>
      cases b with
      | nil => exact absurd rfl hb
      | cons m ms => simp [joinSegs]
    | cons m ms =>
      have h2 := ih (by simp)
      calc joinSegs ((n :: m :: ms) ++ b)
          = n ++ '/' :: joinSegs ((m :: ms) ++ b) := rfl
        _ = n ++ '/' :: (joinSegs (m :: ms) ++ '/' :: joinSegs b) := by
            rw [h2]
        _ = joinSegs (n :: m :: ms) ++ '/' :: joinSegs b := by
            simp [joinSegs]

theorem splitSlash_noslash (n : Seg) (hn : ('/' : Char) ∉ n) :
    splitSlash n = [n] := by
  induction n with
  | nil => rfl
  | cons c cs ih =>
    have hc : ¬c = '/' := fun e => hn (by simp [e])
    have hcs := ih (fun m => hn (List.mem_cons_of_mem c m))
    simp [splitSlash, hc, hcs]

theorem splitSlash_append_slash (n : Seg) (rest : PathStr)
    (hn : ('/' : Char) ∉ n) :
    splitSlash (n ++ '/' :: rest) = n :: splitSlash rest := by
  induction n with
  | nil => simp [splitSlash]
  | cons c cs ih =>
    have hc : ¬c = '/' := fun e => hn (by simp [e])
    have hcs := ih (fun m => hn (List.mem_cons_of_mem c m))
    simp [splitSlash, hc, hcs]

theorem splitSlash_joinSegs (l : List Seg) (hl : l ≠ [])
    (h : ∀ n ∈ l, ('/' : Char) ∉ n) :
    splitSlash (joinSegs l) = l := by
  induction l with
  | nil => exact absurd rfl hl
  | cons n ns ih =>
    cases ns with
    | nil => exact splitSlash_noslash n (h n (by simp))
    | cons m ms =>
      have h1 : joinSegs (n :: m :: ms) = n ++ '/' :: joinSegs (m :: ms) :=
        rfl
      rw [h1, splitSlash_append_slash n _ (h n (by simp)),
        ih (by simp) (fun x hx => h x (List.mem_cons_of_mem n hx))]

theorem cleanStep_valid (rooted : Bool) (acc : List Seg) (n : Seg)
    (hn : validName n) : cleanStep rooted acc n = acc ++ [n] := by
  obtain ⟨h1, _, h3, h4⟩ := hn
  unfold cleanStep
  rw [if_neg (by simp [h1, h3]), if_neg h4]

theorem foldl_cleanStep_valid (rooted : Bool) (segs : List Seg)
    (acc : List Seg) (h : ∀ n ∈ segs, validName n) :
    segs.foldl (cleanStep rooted) acc = acc ++ segs := by
  induction segs generalizing acc with
  | nil => simp
  | cons n ns ih =>
    rw [List.foldl_cons, cleanStep_valid rooted acc n (h n (by simp)),
      ih (acc ++ [n]) (fun x hx => h x (List.mem_cons_of_mem n hx))]
    simp

theorem joinSegs_ne_nil (n : Seg) (ns : List Seg) (hn : n ≠ []) :
    joinSegs (n :: ns) ≠ [] := by
  cases ns with
  | nil => exact hn
  | cons m ms =>
    show n ++ '/' :: joinSegs (m :: ms) ≠ []
    simp

theorem joinSegs_head? (n : Seg) (ns : List Seg) (hn : n ≠ []) :
    (joinSegs (n :: ns)).head? = n.head? := by
  cases ns with
  | nil => rfl
  | cons m ms =>
    show (n ++ '/' :: joinSegs (m :: ms)).head? = n.head?
    cases n with
    | nil => exact absurd rfl hn
    | cons c cs => rfl

theorem goClean_pathOf (abs : Bool) (segs : List Seg) (h0 : segs ≠ [])
    (hv : ∀ n ∈ segs, validName n) :
    goClean (pathOf abs segs) = pathOf abs segs := by
  obtain ⟨n, ns, rfl⟩ := List.exists_cons_of_ne_nil h0
  have hnm : ∀ m ∈ n :: ns, ('/' : Char) ∉ m :=
    fun m hm => (hv m hm).2.1
  have hn0 : n ≠ [] := (hv n (by simp)).1
  have hsplit : splitSlash (joinSegs (n :: ns)) = n :: ns :=
    splitSlash_joinSegs _ (by simp) hnm
  have hjn : joinSegs (n :: ns) ≠ [] := joinSegs_ne_nil n ns hn0
  cases abs with
  | true =>
    show goClean ('/' :: joinSegs (n :: ns)) = '/' :: joinSegs (n :: ns)
    unfold goClean
    rw [if_neg (by simp)]
    have hr : (('/' : Char) :: joinSegs (n :: ns)).head? = some '/' := rfl
    have hss : splitSlash ('/' :: joinSegs (n :: ns)) = [] :: n :: ns := by
      show [] :: splitSlash (joinSegs (n :: ns)) = [] :: n :: ns
      rw [hsplit]
    simp only [hr, List.head?_cons, beq_self_eq_true, hss]
    rw [show List.foldl (cleanStep true) [] ([] :: n :: ns)
        = List.foldl (cleanStep true) [] (n :: ns) from rfl,
      foldl_cleanStep_valid true (n :: ns) [] hv]
    rfl
  | false =>
    show goClean (joinSegs (n :: ns)) = joinSegs (n :: ns)
    unfold goClean
    rw [if_neg hjn]
    have hhd : (joinSegs (n :: ns)).head? = n.head? := joinSegs_head? n ns hn0
    obtain ⟨c, cs, rfl⟩ := List.exists_cons_of_ne_nil hn0
    have hc : ¬c = '/' := by
      intro e
      exact hnm (c :: cs) (by simp) (by rw [e]; exact List.mem_cons_self _ _)
    have hr : ((joinSegs ((c :: cs) :: ns)).head? == some '/') = false := by
      rw [hhd]
      simpa using hc
    simp only [hr, hsplit]
    rw [foldl_cleanStep_valid false ((c :: cs) :: ns) [] hv]
    rfl

theorem goJoin_pathOf (abs : Bool) (rs : List Seg) (n : Seg)
    (h0 : rs ≠ []) (hv : ∀ m ∈ rs, validName m)
    (hn : validName n) :
    goJoin (pathOf abs rs) n = pathOf abs (rs ++ [n]) := by
  unfold goJoin
  have hcat : pathOf abs rs ++ '/' :: n = pathOf abs (rs ++ [n]) := by
    unfold pathOf
    rw [joinSegs_append rs [n] h0 (by simp)]
    simp [joinSegs]
  rw [hcat, goClean_pathOf abs (rs ++ [n]) (by simp)
    (by intro m hm
        rcases List.mem_append.mp hm with h | h
        · exact hv m h
        · simp at h; subst h; exact hn)]

theorem fullPath_pathOf (abs : Bool) (fsegs : List Seg) (rs : List Seg)
    (h0 : rs ≠ []) (hv : ∀ m ∈ rs, validName m)
    (hf : ∀ m ∈ fsegs, validName m) :
    fsegs.foldl goJoin (pathOf abs rs) = pathOf abs (rs ++ fsegs) := by
  induction fsegs generalizing rs with
  | nil => simp
  | cons s ss ih =>
    have hs : validName s := hf s (by simp)
    rw [List.foldl_cons,
      goJoin_pathOf abs rs s h0 hv hs,
      ih (rs ++ [s]) (by simp)
        (by intro m hm
            rcases List.mem_append.mp hm with h | h
            · exact hv m h
            · simp at h; subst h; exact hs)
        (fun m hm => hf m (List.mem_cons_of_mem s hm))]
    simp

theorem goTrimPfx_append (pre y : PathStr) : goTrimPfx (pre ++ y) pre = y := by
  unfold goTrimPfx
  rw [if_pos (List.isPrefixOf_iff_prefix.mpr (List.prefix_append pre y)),
    List.drop_left]

theorem entryName_pathOf (abs : Bool) (rs : List Seg) (e : FileEntry)
    (h0 : rs ≠ []) (hv : ∀ m ∈ rs, validName m)
    (he0 : e.segs ≠ []) (hev : ∀ m ∈ e.segs, validName m) :
    entryName (pathOf abs rs) e = joinSegs e.segs := by
  unfold entryName fullPath
  rw [fullPath_pathOf abs e.segs rs h0 hv hev]
  have hsplitcat : pathOf abs (rs ++ e.segs)
      = (pathOf abs rs ++ ['/']) ++ joinSegs e.segs := by
    unfold pathOf
    rw [joinSegs_append rs e.segs h0 he0]
    simp
  rw [hsplitcat, goTrimPfx_append]

/-! ### Walk provenance and C3 / C5 -/

/-- Every entry a successful walk produces is either inherited from the
accumulator or named `entryName root e` for some walked file `e`. -/
theorem zipWalk_ok_entries (root : PathStr) (l : List FileEntry)
    (acc res : List (PathStr × Bytes)) (h : zipWalk root l acc = .ok res) :
    ∀ p ∈ res, p ∈ acc ∨ ∃ e ∈ l, ∃ data, p = (entryName root e, data) := by
  induction l generalizing acc with
  | nil =>
    intro p hp
    unfold zipWalk at h
    injection h with h'
    subst h'
    exact Or.inl hp
  | cons e rest ih =>
    intro p hp
    unfold zipWalk at h
    cases hz : zipStep root acc e with
    | panics => rw [hz] at h; cases h
    | error er => rw [hz] at h; cases h
    | ok acc' =>
      rw [hz] at h
      rcases ih acc' h p hp with hin | ⟨e', he', d, hd⟩
      · unfold zipStep at hz
        cases hst : e.status with
        | statFails => rw [hst] at hz; cases hz
        | readFails => rw [hst] at hz; cases hz
        | readable data =>
          rw [hst] at hz
          injection hz with hz'
          rw [← hz'] at hin
          rcases List.mem_append.mp hin with h1 | h1
          · exact Or.inl h1
          · simp only [List.mem_singleton] at h1
            exact Or.inr ⟨e, by simp, data, h1⟩
      · exact Or.inr ⟨e', List.mem_cons_of_mem e he', d, hd⟩

/-- C3 (amended): when the supplied root path is clean with no trailing
separator (`pathOf abs rs` with valid components) and the tree's file
names are valid directory-entry names, every entry name `ZipFolder`
records neither begins with a path separator nor contains a
parent-directory traversal segment.  (The original claim also covered
roots with a trailing separator; `c3_counterexample` refutes that case.) -/
theorem c3_amended (abs : Bool) (rs : List Seg) (tree : List FileEntry)
    (arch : ZipArchive) (h0 : rs ≠ []) (hv : ∀ m ∈ rs, validName m)
    (ht : ∀ e ∈ tree, e.segs ≠ [] ∧ ∀ m ∈ e.segs, validName m)
    (hrun : ZipFolder (pathOf abs rs) tree = .ok arch) :
    ∀ p ∈ arch.entries, p.1.head? ≠ some '/' ∧ ['.', '.'] ∉ splitSlash p.1 := by
  intro p hp
  unfold ZipFolder at hrun
  cases hw : zipWalk (pathOf abs rs) (walkOrder tree) [] with
  | error er => rw [hw] at hrun; cases hrun
  | panics => rw [hw] at hrun; cases hrun
  | ok entries =>
    rw [hw] at hrun
    injection hrun with h'
    rw [← h'] at hp
    rcases zipWalk_ok_entries _ _ _ _ hw p hp with hin | ⟨e, he, data, hd⟩
    · simp at hin
    · have hetree : e ∈ tree :=
        ((List.perm_insertionSort entryLe tree).mem_iff).mp he
      obtain ⟨he0, hev⟩ := ht e hetree
      have hname : p.1 = joinSegs e.segs := by
        rw [hd, entryName_pathOf abs rs e h0 hv he0 hev]
      have hslash : ∀ m ∈ e.segs, ('/' : Char) ∉ m :=
        fun m hm => (hev m hm).2.1
      constructor
      · obtain ⟨n, ns, hsegs⟩ := List.exists_cons_of_ne_nil he0
        have hn : validName n := hev n (by rw [hsegs]; simp)
        obtain ⟨c, cs, hc⟩ := List.exists_cons_of_ne_nil hn.1
        have : p.1.head? = some c := by
          rw [hname, hsegs, joinSegs_head? n ns hn.1, hc]
          rfl
        rw [this]
        intro hcontra
        injection hcontra with hcc
        exact hn.2.1 (by rw [hc, hcc]; exact List.mem_cons_self _ _)
      · rw [hname, splitSlash_joinSegs e.segs he0 hslash]
        intro hmem
        exact (hev _ hmem).2.2.2 rfl

/-- C3 amended, witness: the root `/data` (clean, no trailing separator)
with the single readable file `a` yields the entry name `a`, which starts
with no separator and has no `..` segment. -/
theorem c3_amended_witness :
    (['a'] : PathStr).head? ≠ some '/' ∧
    ['.', '.'] ∉ splitSlash (['a'] : PathStr) := by
  have h := c3_amended true [['d', 'a', 't', 'a']] [fileA]
    ⟨[(['a'], [104])], true⟩ (by decide) (by decide)
    (by intro e he; simp only [List.mem_singleton] at he; subst he
        exact ⟨by decide, by decide⟩)
    (by rfl)
  exact h (['a'], [104]) (by simp)

/-- C5: archiving an unchanged folder tree is deterministic — the stored
enumeration order of the directory entries does not matter (the walk sorts
them), so two runs over the same tree produce identical output buffers,
and the walk visits the files in the deterministic lexicographic order. -/
theorem c5_determinism (root : PathStr) (t₁ t₂ : List FileEntry)
    (hperm : t₁.Perm t₂) (hnd : (t₁.map FileEntry.segs).Nodup) :
    ZipFolder root t₁ = ZipFolder root t₂ ∧
    List.Sorted entryLe (walkOrder t₁) := by
  have hs₁ : List.Sorted entryLe (walkOrder t₁) :=
    List.sorted_insertionSort entryLe t₁
  have hs₂ : List.Sorted entryLe (walkOrder t₂) :=
    List.sorted_insertionSort entryLe t₂
  have hsymm : ∀ {x y : FileEntry},
      x.segs ≠ y.segs → y.segs ≠ x.segs := fun h => h.symm
  have hp₁ : (walkOrder t₁).Perm t₁ := List.perm_insertionSort entryLe t₁
  have hp₂ : (walkOrder t₂).Perm t₂ := List.perm_insertionSort entryLe t₂
  have hp : (walkOrder t₁).Perm (walkOrder t₂) :=
    hp₁.trans (hperm.trans hp₂.symm)
  have hnd₁ : List.Pairwise (fun a b : FileEntry => a.segs ≠ b.segs) t₁ :=
    List.pairwise_map.mp hnd
  have hndw₁ : List.Pairwise (fun a b : FileEntry => a.segs ≠ b.segs)
      (walkOrder t₁) :=
    ((List.Perm.pairwise_iff hsymm hp₁).mpr hnd₁)
  have hndw₂ : List.Pairwise (fun a b : FileEntry => a.segs ≠ b.segs)
      (walkOrder t₂) :=
    ((List.Perm.pairwise_iff hsymm hp).mp hndw₁)
  have hlt₁ : List.Sorted entryLt (walkOrder t₁) :=
    (hs₁.and hndw₁).imp fun h => lt_of_le_of_ne h.1 h.2
  have hlt₂ : List.Sorted entryLt (walkOrder t₂) :=
    (hs₂.and hndw₂).imp fun h => lt_of_le_of_ne h.1 h.2
  have hw : walkOrder t₁ = walkOrder t₂ :=
    List.eq_of_perm_of_sorted hp hlt₁ hlt₂
  refine ⟨?_, hs₁⟩
  unfold ZipFolder
  rw [hw]

/-- C5 witness: the same two files enumerated in the two possible orders
produce identical archives, and the visit order is sorted. -/
theorem c5_determinism_witness :
    ZipFolder rootA [fileB, fileA] = ZipFolder rootA [fileA, fileB] ∧
    List.Sorted entryLe (walkOrder [fileB, fileA]) :=
  c5_determinism rootA [fileB, fileA] [fileA, fileB]
    (List.Perm.swap fileA fileB []) (by decide)

/-- C7 (code_bug evaluation): a file whose `lstat` fails mid-walk makes
`ZipFolder` panic (nil `FileInfo` dereferenced in the callback, which
ignores the error argument), instead of returning the I/O error the spec
describes; a `ReadFile` failure after a successful stat does return an
I/O error. -/
theorem c7_midwalk_failure :
    ZipFolder rootA [fileStatX] = .panics ∧
    ZipFolder rootA [fileReadX] = .error .ioRead := by
  constructor <;> rfl

/-- C10 (code_bug evaluation): when `os.Stat` fails for a reason other
than non-existence, `isDirExists` dereferences the nil `FileInfo` and
panics rather than returning a boolean (while `isFileExists` is total and
returns true there), and `validateInputs` propagates the panic. -/
theorem c10_isDirExists_nil_deref :
    isDirExists .statError = .panics ∧
    isFileExists .statError = true ∧
    validateInputs cfgOk .statError .foundFile .foundFile = .panics := by
  refine ⟨rfl, rfl, ?_⟩
  rfl

/-- C3 counterexample: with the root path `/data/` (trailing separator),
the walk hands the callback the cleaned path `/data/a`, the prefix
`folderPath+"/" = "/data//"` does not match, and the recorded entry name
is the absolute path `/data/a`, which begins with a path separator. -/
theorem c3_counterexample :
    ZipFolder (rootA ++ ['/']) [fileA]
      = .ok ⟨[(rootA ++ ['/', 'a'], [104])], true⟩ ∧
    (rootA ++ ['/', 'a']).head? = some '/' := by
  constructor <;> rfl

/-- C8: an empty directory tree yields the valid, finalized, zero-entry
archive (not an error), and the empty payload encrypts successfully
whenever the run's key material encrypts anything successfully. -/
theorem c8_empty_tree (root : PathStr) (payload : ZipArchive)
    (pubSrc privSrc : Except Err (List Entity)) (pw : List Char) (sk : Nat)
    (henc : (EncryptAndSign payload pubSrc privSrc pw sk []).1 = .ok ()) :
    ZipFolder root [] = .ok ⟨[], true⟩ ∧
    (EncryptAndSign payload0 pubSrc privSrc pw sk []).1 = .ok () := by
  refine ⟨rfl, ?_⟩
  rw [encryptAndSign_fst_payload_eq payload0 payload]
  exact henc

/-- C8 witness: concrete instantiation (empty tree at `/data`, one
recipient, the unlocked signer). -/
theorem c8_empty_tree_witness :
    ZipFolder rootA [] = .ok ⟨[], true⟩ ∧
    (EncryptAndSign payload0 (.ok [recip7]) (.ok [signer9])
      ['p', 'w'] 5 []).1 = .ok () :=
  c8_empty_tree rootA ⟨[(['q'], [104])], true⟩
    (.ok [recip7]) (.ok [signer9]) ['p', 'w'] 5 (by rfl)

/-! ### Crypto-stage lemmas and claims C1, C2, C4, C6 -/

/-- Inversion of a successful `EncryptAndSign` run: the chosen signer
holds a decrypted, well-formed private key, the recipient set is
nonempty, and the final buffer is the initial buffer followed by one
session-key packet per recipient and the signed body. -/
theorem encryptAndSign_ok_inv (payload : ZipArchive)
    (pubs privs : List Entity) (pw : List Char) (sk : Nat)
    (buf bf : List MsgPart) (privs' : List Entity) (e0 : Entity)
    (hloop : decryptLoop pw privs = .ok privs')
    (hhead : chosenSigner privs' = some e0)
    (hrun : EncryptAndSign payload (.ok pubs) (.ok privs) pw sk buf
      = (.ok (), bf)) :
    ∃ pk, e0.privateKey = some pk ∧ pk.encrypted = false ∧
      pk.signBroken = false ∧ pubs ≠ [] ∧
      bf = buf ++ pubs.map (fun r => .encKey r.keyId sk)
        ++ [.body sk e0.keyId payload] := by
  unfold EncryptAndSign at hrun
  dsimp only at hrun
  rw [hloop] at hrun
  dsimp only at hrun
  rw [hhead] at hrun
  dsimp only at hrun
  unfold pgpEncryptInit at hrun
  cases hpk : e0.privateKey with
  | none => rw [hpk] at hrun; cases hrun
  | some pk =>
    rw [hpk] at hrun
    by_cases henc : pk.encrypted = true
    · simp only [henc, if_true] at hrun
      cases hrun
    · have henc' : pk.encrypted = false := by
        cases h : pk.encrypted
        · rfl
        · exact absurd h henc
      simp only [henc', Bool.false_eq_true, if_false] at hrun
      by_cases hemp : pubs.isEmpty = true
      · simp only [hemp, if_true] at hrun
        cases hrun
      · simp only [hemp, if_false] at hrun
        dsimp only [pgpClose] at hrun
        by_cases hsb : pk.signBroken = true
        · simp only [hsb, if_true] at hrun
          cases hrun
        · have hsb' : pk.signBroken = false := by
            cases h : pk.signBroken
            · rfl
            · exact absurd h hsb
          simp only [hsb', Bool.false_eq_true, if_false] at hrun
          injection hrun with h1 h2
          refine ⟨pk, rfl, henc', hsb', ?_, ?_⟩
          · intro he
            subst he
            simp at hemp
          · exact h2.symm

/-- Looking up the session key with any recipient's private key succeeds:
every session-key packet of the run carries the same session key. -/
theorem findSessionKey_mem (pubs : List Entity) (r : Entity) (sk : Nat)
    (rest : List MsgPart) (hr : r ∈ pubs) :
    findSessionKey r.keyId
      (pubs.map (fun p => MsgPart.encKey p.keyId sk) ++ rest) = some sk := by
  induction pubs with
  | nil => cases hr
  | cons p ps ih =>
    simp only [List.map_cons, List.cons_append]
    unfold findSessionKey
    by_cases h : p.keyId = r.keyId
    · rw [if_pos h]
    · rw [if_neg h]
      rcases List.mem_cons.mp hr with he | hm
      · subst he; exact absurd rfl h
      · exact ih hm

/-- Opening the body with the session key skips the session-key packets
and returns the signed payload. -/
theorem findBody_skip (pubs : List Entity) (sk : Nat) (signerId : Nat)
    (payload : ZipArchive) :
    findBody sk (pubs.map (fun p => MsgPart.encKey p.keyId sk)
      ++ [.body sk signerId payload]) = some (payload, signerId) := by
  induction pubs with
  | nil => simp [findBody]
  | cons p ps ih =>
    simp only [List.map_cons, List.cons_append]
    unfold findBody
    exact ih

/-- C1: for every archive successfully processed by `EncryptAndSign`,
decrypting the produced message with any recipient's private key and
verifying the signature against the signer's public key recovers the
original archive exactly, and the signature check passes. -/
theorem c1_roundtrip (payload : ZipArchive) (pubs privs : List Entity)
    (pw : List Char) (sk : Nat) (bf : List MsgPart)
    (privs' : List Entity) (e0 : Entity) (r : Entity)
    (hloop : decryptLoop pw privs = .ok privs')
    (hhead : chosenSigner privs' = some e0)
    (hrun : EncryptAndSign payload (.ok pubs) (.ok privs) pw sk []
      = (.ok (), bf))
    (hr : r ∈ pubs) :
    pgpDecrypt r.keyId bf = some (payload, e0.keyId) ∧
    sigMatches e0.keyId (payload, e0.keyId) = true := by
  obtain ⟨pk, hpk, henc, hsb, hpubs, hbf⟩ :=
    encryptAndSign_ok_inv payload pubs privs pw sk [] bf privs' e0
      hloop hhead hrun
  rw [List.nil_append] at hbf
  subst hbf
  constructor
  · unfold pgpDecrypt
    rw [findSessionKey_mem pubs r sk _ hr]
    exact findBody_skip pubs sk e0.keyId payload
  · simp [sigMatches]

/-- C1 witness: one recipient, the locked signer unlocked by `pw`, a
one-entry archive; decrypting with the recipient's key recovers the
archive and the signature verifies against key 9. -/
theorem c1_roundtrip_witness :
    pgpDecrypt 7 [.encKey 7 5, .body 5 9 payload1]
      = some (payload1, 9) ∧
    sigMatches 9 (payload1, 9) = true := by
  have h := c1_roundtrip payload1 [recip7] [signer9] ['p', 'w'] 5
    [.encKey 7 5, .body 5 9 payload1] [signer9U] signer9U recip7
    (by rfl) (by rfl) (by rfl) (by simp)
  exact h

/-- C2 counterexample: a private keyring whose first identity holds no
private key material while the second holds usable material.  The spec's
policy selects the second; the code selects `privateKeyList[0]` — the
first — and encryption then fails despite a usable later identity. -/
theorem c2_counterexample :
    chosenSigner [entNoKey, entUsable] = some entNoKey ∧
    usableEntity entNoKey = false ∧
    firstUsableSigner [entNoKey, entUsable] = some entUsable ∧
    chosenSigner [entNoKey, entUsable]
      ≠ firstUsableSigner [entNoKey, entUsable] ∧
    (EncryptAndSign payload0 (.ok [recip7]) (.ok [entNoKey, entUsable])
      [] 5 []).1 = .error .invalidArg := by
  refine ⟨rfl, rfl, by decide, by decide, rfl⟩

/-- C2 (amended): `EncryptAndSign` always selects the first identity of
the parsed private keyring as the signer, regardless of whether it holds
usable private key material: if that first identity is unusable the
function fails (even when a later identity is usable), and on success the
produced message is signed by the first identity's key. -/
theorem c2_amended (payload : ZipArchive) (pubs privs : List Entity)
    (pw : List Char) (sk : Nat) (buf : List MsgPart)
    (privs' : List Entity) (e0 : Entity)
    (hloop : decryptLoop pw privs = .ok privs')
    (hhead : chosenSigner privs' = some e0) :
    (usableEntity e0 = false →
      (EncryptAndSign payload (.ok pubs) (.ok privs) pw sk buf).1
        = .error .invalidArg) ∧
    (∀ bf, EncryptAndSign payload (.ok pubs) (.ok privs) pw sk buf
        = (.ok (), bf) → MsgPart.body sk e0.keyId payload ∈ bf) := by
  constructor
  · intro hun
    unfold EncryptAndSign
    dsimp only
    rw [hloop]
    dsimp only
    rw [hhead]
    dsimp only
    unfold pgpEncryptInit
    cases hpk : e0.privateKey with
    | none => rfl
    | some pk =>
      have henc : pk.encrypted = true := by
        unfold usableEntity at hun
        rw [hpk] at hun
        simpa using hun
      simp only [henc, if_true]
  · intro bf hrun
    obtain ⟨pk, _, _, _, _, hbf⟩ :=
      encryptAndSign_ok_inv payload pubs privs pw sk buf bf privs' e0
        hloop hhead hrun
    rw [hbf]
    simp

/-- C2 amended witness: with the keyring `[entNoKey, entUsable]` the first
identity (no key material) is chosen and encryption fails. -/
theorem c2_amended_witness :
    (usableEntity entNoKey = false →
      (EncryptAndSign payload0 (.ok [recip7]) (.ok [entNoKey, entUsable])
        [] 5 []).1 = .error .invalidArg) ∧
    (∀ bf, EncryptAndSign payload0 (.ok [recip7])
        (.ok [entNoKey, entUsable]) [] 5 [] = (.ok (), bf) →
      MsgPart.body 5 entNoKey.keyId payload0 ∈ bf) :=
  c2_amended payload0 [recip7] [entNoKey, entUsable] [] 5 []
    [entNoKey, entUsable] entNoKey (by rfl) (by rfl)

/-- C4: when the first private-keyring identity's key is
passphrase-protected and the supplied passphrase is wrong, the unlock
loop fails immediately with the authentication error. -/
theorem decryptLoop_wrong_pass (pw : List Char) (privs : List Entity)
    (e0 : Entity) (pk : PrivKey) (hhead : privs.head? = some e0)
    (hpk : e0.privateKey = some pk) (henc : pk.encrypted = true)
    (hwrong : pw ≠ pk.pass) :
    decryptLoop pw privs = .error .authFail := by
  cases privs with
  | nil => cases hhead
  | cons a rest =>
    rw [List.head?_cons] at hhead
    injection hhead with ha
    subst ha
    unfold decryptLoop
    rw [hpk]
    unfold PrivKey.decryptKey
    simp [henc, hwrong]

/-- C4: with a wrong signing passphrase for the signer's
passphrase-protected private key, `EncryptAndSign` returns the
authentication error with the output buffer untouched, and `UploadToS3`
is never invoked in the run. -/
theorem c4_wrong_passphrase (cfg : Config) (w : World)
    (pubs privs : List Entity) (e0 : Entity) (pk : PrivKey)
    (hpub : w.pubSrc = .ok pubs) (hpriv : w.privSrc = .ok privs)
    (hhead : privs.head? = some e0)
    (hpk : e0.privateKey = some pk) (henc : pk.encrypted = true)
    (hwrong : cfg.password ≠ pk.pass) :
    (∀ payload sk buf,
      EncryptAndSign payload (.ok pubs) (.ok privs) cfg.password sk buf
        = (.error .authFail, buf)) ∧
    Stage.uploadStage ∉ (runMain cfg w).2 := by
  have hloop : decryptLoop cfg.password privs = .error .authFail :=
    decryptLoop_wrong_pass cfg.password privs e0 pk hhead hpk henc hwrong
  have hEAS : ∀ payload sk buf,
      EncryptAndSign payload (.ok pubs) (.ok privs) cfg.password sk buf
        = (.error .authFail, buf) := by
    intro payload sk buf
    unfold EncryptAndSign
    dsimp only
    rw [hloop]
  refine ⟨hEAS, ?_⟩
  unfold runMain
  cases hval : validateInputs cfg w.folderStat w.tpubStat w.sprivStat with
  | panics => dsimp only; decide
  | error er => dsimp only; decide
  | ok u =>
    cases u
    dsimp only
    cases hzip : ZipFolder cfg.folder w.tree with
    | panics => dsimp only; decide
    | error er => dsimp only; decide
    | ok archive =>
      dsimp only
      rw [hpub, hpriv, hEAS archive w.sessionKey []]
      dsimp only
      decide

/-- C4 witness: the concrete run with the wrong passphrase `xx` for the
locked signing key (unlocked by `pw`). -/
theorem c4_wrong_passphrase_witness :
    (∀ payload sk buf,
      EncryptAndSign payload (.ok [recip7]) (.ok [signer9])
        cfgWrongPass.password sk buf = (.error .authFail, buf)) ∧
    Stage.uploadStage ∉ (runMain cfgWrongPass worldLocked).2 :=
  c4_wrong_passphrase cfgWrongPass worldLocked [recip7] [signer9]
    signer9 pkLocked rfl rfl rfl rfl rfl (by decide)

/-- C6 counterexample: with one recipient and a signer whose key material
fails at signature time, the write/finalize step errors and
`EncryptAndSign` returns an error — but the output buffer (initially
empty) now holds the already-written session-key packet, refuting "the
output buffer it was given is left unchanged" for this failure case. -/
theorem c6_counterexample :
    (EncryptAndSign payload0 (.ok [recip7]) (.ok [entBroken]) [] 5 []).1
      = .error .sigFail ∧
    (EncryptAndSign payload0 (.ok [recip7]) (.ok [entBroken]) [] 5 []).2
      = [.encKey 7 5] ∧
    ([.encKey 7 5] : List MsgPart) ≠ [] := by
  refine ⟨rfl, rfl, by decide⟩

/-- C6 (amended): `EncryptAndSign` returns an error in each of the three
failure cases; for failures detected before the encrypting sink writes
(empty recipient set, unusable signer identity) the output buffer is left
unchanged, while a write/finalize failure leaves the already-written
session-key packets in the buffer (the pipeline then discards the buffer:
`main` panics, and no artifact is uploaded). -/
theorem c6_amended (payload : ZipArchive) (pubs privs : List Entity)
    (pw : List Char) (sk : Nat) (buf : List MsgPart)
    (privs' : List Entity) (e0 : Entity)
    (hloop : decryptLoop pw privs = .ok privs')
    (hhead : chosenSigner privs' = some e0) :
    (pubs = [] →
      EncryptAndSign payload (.ok pubs) (.ok privs) pw sk buf
        = (.error .invalidArg, buf)) ∧
    (usableEntity e0 = false →
      EncryptAndSign payload (.ok pubs) (.ok privs) pw sk buf
        = (.error .invalidArg, buf)) ∧
    (∀ pk, e0.privateKey = some pk → pk.encrypted = false →
      pk.signBroken = true → pubs ≠ [] →
      EncryptAndSign payload (.ok pubs) (.ok privs) pw sk buf
        = (.error .sigFail,
           buf ++ pubs.map (fun r => .encKey r.keyId sk))) := by
  refine ⟨?_, ?_, ?_⟩
  · intro hemp
    subst hemp
    unfold EncryptAndSign
    dsimp only
    rw [hloop]
    dsimp only
    rw [hhead]
    dsimp only
    unfold pgpEncryptInit
    cases hpk : e0.privateKey with
    | none => rfl
    | some pk =>
      by_cases henc : pk.encrypted = true
      · simp [henc]
      · have henc' : pk.encrypted = false := by
          cases h : pk.encrypted
          · rfl
          · exact absurd h henc
        simp [henc']
  · intro hun
    unfold EncryptAndSign
    dsimp only
    rw [hloop]
    dsimp only
    rw [hhead]
    dsimp only
    unfold pgpEncryptInit
    cases hpk : e0.privateKey with
    | none => rfl
    | some pk =>
      have henc : pk.encrypted = true := by
        unfold usableEntity at hun
        rw [hpk] at hun
        simpa using hun
      simp only [henc, if_true]
  · intro pk hpk henc hsb hne
    unfold EncryptAndSign
    dsimp only
    rw [hloop]
    dsimp only
    rw [hhead]
    dsimp only
    unfold pgpEncryptInit
    rw [hpk]
    have hne' : pubs.isEmpty = false := by
      cases pubs
      · exact absurd rfl hne
      · rfl
    simp only [henc, Bool.false_eq_true, if_false, hne']
    dsimp only [pgpClose]
    simp only [hsb, if_true]

/-- C6 amended witness: concrete instantiation with one recipient and the
signer whose material breaks at signature time. -/
theorem c6_amended_witness :
    (([recip7] : List Entity) = [] →
      EncryptAndSign payload0 (.ok [recip7]) (.ok [entBroken]) [] 5 []
        = (.error .invalidArg, [])) ∧
    (usableEntity entBroken = false →
      EncryptAndSign payload0 (.ok [recip7]) (.ok [entBroken]) [] 5 []
        = (.error .invalidArg, [])) ∧
    (∀ pk, entBroken.privateKey = some pk → pk.encrypted = false →
      pk.signBroken = true → ([recip7] : List Entity) ≠ [] →
      EncryptAndSign payload0 (.ok [recip7]) (.ok [entBroken]) [] 5 []
        = (.error .sigFail,
           [] ++ [recip7].map (fun r => .encKey r.keyId 5))) :=
  c6_amended payload0 [recip7] [entBroken] [] 5 [] [entBroken] entBroken
    (by rfl) (by rfl)

/-! ### Validation: C9 -/

theorem isFileExists_true_iff (t : StatRes) :
    isFileExists t = true ↔ t ≠ .notFound := by
  cases t <;> simp [isFileExists]

/-- A successful validation pins down all nine required values. -/
theorem validateInputs_ok_inv (cfg : Config) (f t s : StatRes)
    (h : validateInputs cfg f t s = .ok ()) :
    cfg.folder ≠ [] ∧ f = .foundDir ∧ cfg.tpub ≠ [] ∧ t ≠ .notFound ∧
    cfg.spriv ≠ [] ∧ s ≠ .notFound ∧ cfg.password ≠ [] ∧
    cfg.region ≠ [] ∧ cfg.bucket ≠ [] ∧ cfg.s3key ≠ [] ∧
    cfg.accessKey ≠ [] ∧ cfg.secretKey ≠ [] := by
  unfold validateInputs at h
  by_cases h1 : cfg.folder = []
  · rw [if_pos h1] at h; cases h
  rw [if_neg h1] at h
  have hf : f = .foundDir := by
    cases f
    · rfl
    · simp [isDirExists] at h
    · simp [isDirExists] at h
    · simp [isDirExists] at h
  subst hf
  simp only [isDirExists] at h
  rw [if_neg (by simp)] at h
  by_cases h3 : cfg.tpub = []
  · rw [if_pos h3] at h; cases h
  rw [if_neg h3] at h
  by_cases h4 : (!isFileExists t) = true
  · rw [if_pos h4] at h; cases h
  rw [if_neg h4] at h
  by_cases h5 : cfg.spriv = []
  · rw [if_pos h5] at h; cases h
  rw [if_neg h5] at h
  by_cases h6 : (!isFileExists s) = true
  · rw [if_pos h6] at h; cases h
  rw [if_neg h6] at h
  by_cases h7 : cfg.password = []
  · rw [if_pos h7] at h; cases h
  rw [if_neg h7] at h
  by_cases h8 : cfg.region = []
  · rw [if_pos h8] at h; cases h
  rw [if_neg h8] at h
  by_cases h9 : cfg.bucket = [] ∨ cfg.s3key = []
  · rw [if_pos h9] at h; cases h
  rw [if_neg h9] at h
  by_cases h10 : cfg.accessKey = [] ∨ cfg.secretKey = []
  · rw [if_pos h10] at h; cases h
  have ht : t ≠ .notFound := by
    rw [Bool.not_eq_true'] at h4
    exact isFileExists_true_iff t |>.mp (by simpa using h4)
  have hs : s ≠ .notFound := by
    rw [Bool.not_eq_true'] at h6
    exact isFileExists_true_iff s |>.mp (by simpa using h6)
  rcases not_or.mp h9 with ⟨h9a, h9b⟩
  rcases not_or.mp h10 with ⟨h10a, h10b⟩
  exact ⟨h1, rfl, h3, ht, h5, hs, h7, h8, h9a, h9b, h10a, h10b⟩

/-- Validation can only panic when the folder stat fails abnormally. -/
theorem validateInputs_not_panics (cfg : Config) (f t s : StatRes)
    (hf : f ≠ .statError) :
    validateInputs cfg f t s ≠ .panics := by
  unfold validateInputs
  by_cases h1 : cfg.folder = []
  · rw [if_pos h1]; simp
  rw [if_neg h1]
  cases f with
  | statError => exact absurd rfl hf
  | foundFile => simp [isDirExists]
  | notFound => simp [isDirExists]
  | foundDir =>
    simp only [isDirExists]
    split_ifs <;> simp

/-- C9: whenever any of the nine required run values is missing or
invalid (under normal stat behavior for the folder path), the run ends
with a validation error reported via a clean return, and only the
validation stage executes: no archive is built, no key file is opened,
no network call is made. -/
theorem c9_validation (cfg : Config) (w : World)
    (hb : w.folderStat ≠ .statError)
    (hinv : cfg.folder = [] ∨ w.folderStat ≠ .foundDir ∨ cfg.tpub = [] ∨
      w.tpubStat = .notFound ∨ cfg.spriv = [] ∨ w.sprivStat = .notFound ∨
      cfg.password = [] ∨ cfg.region = [] ∨ cfg.bucket = [] ∨
      cfg.s3key = [] ∨ cfg.accessKey = [] ∨ cfg.secretKey = []) :
    ∃ e, runMain cfg w = (.cleanError e, [.validateStage]) := by
  have hnot : validateInputs cfg w.folderStat w.tpubStat w.sprivStat
      ≠ .ok () := by
    intro hok
    obtain ⟨h1, h2, h3, h4, h5, h6, h7, h8, h9, h10, h11, h12⟩ :=
      validateInputs_ok_inv _ _ _ _ hok
    rcases hinv with h | h | h | h | h | h | h | h | h | h | h | h
    exacts [h1 h, h h2, h3 h, h4 h, h5 h, h6 h, h7 h, h8 h, h9 h, h10 h,
      h11 h, h12 h]
  have hnp := validateInputs_not_panics cfg w.folderStat w.tpubStat
    w.sprivStat hb
  cases hv : validateInputs cfg w.folderStat w.tpubStat w.sprivStat with
  | ok u => cases u; exact absurd hv hnot
  | panics => exact absurd hv hnp
  | error e =>
    refine ⟨e, ?_⟩
    unfold runMain
    rw [hv]

/-- C9 witness: the run with the folder flag missing fails validation
cleanly and executes no later stage. -/
theorem c9_validation_witness :
    ∃ e, runMain cfgNoFolder worldLocked
      = (.cleanError e, [.validateStage]) :=
  c9_validation cfgNoFolder worldLocked (by decide) (Or.inl rfl)

end SecureBackup
